import Mathlib

/-!
Verification of the GraphStorm WholeGraph integration module
(python/graphstorm/wholegraph/wholegraph.py): feature resharding,
conversion paths, feature-file trimming, and the distributed tensor
handle, shallowly embedded in Lean.
-/

namespace GSWholeGraph

/-! ## Shard range arithmetic of wholegraph_processing -/

/-- Ceiling division used by the resharder: the Python expression
`-(rows // -num_parts)` rounds the integer division up. -/
def subpart_size (rows num_parts : Nat) : Nat :=
  (rows + num_parts - 1) / num_parts

/-- Row where shard i starts: `st = part_num * subpart_size`. -/
def shard_start (rows num_parts i : Nat) : Nat :=
  i * subpart_size rows num_parts

/-- Row where shard i ends: `(part_num + 1) * subpart_size` for every
shard but the last, and `rows` for the last shard. -/
def shard_end (rows num_parts i : Nat) : Nat :=
  if i = num_parts - 1 then rows else (i + 1) * subpart_size rows num_parts

/-! ## Shape promotion in load_wg_feat -/

/-- The shape passed to create_embedding by load_wg_feat:
`[data_shape[0], 1] if len(data_shape) == 1 else data_shape`. -/
def load_wg_feat_shape (data_shape : List Nat) : List Nat :=
  if data_shape.length = 1 then [data_shape.headD 0, 1] else data_shape

/-! ## Tensors, metadata, and shard files -/

/-- A feature tensor: a list of rows (each a list of scalars) together
with its dtype string. -/
structure Tensor where
  data : List (List Int)
  dtype : String
deriving DecidableEq

/-- The value `list(whole_feat_tensor.shape)` for the 2-dimensional feature
tensors handled by the conversion: row count then row width. -/
def tensorShape (t : Tensor) : List Nat :=
  [t.data.length, (t.data.headD []).length]

/-- Python slicing `t[st:end]`: clamps to the available rows and yields
the empty tensor when `end <= st`. -/
def Tensor.slice (t : Tensor) (st en : Nat) : Tensor :=
  { data := (t.data.drop st).take (en - st), dtype := t.dtype }

/-- Concatenation `th.concat((a, b), dim=0)`: rows appended; dtype of the left input
(the inputs share a dtype in the conversion). -/
def Tensor.concat (a b : Tensor) : Tensor :=
  { data := a.data ++ b.data, dtype := a.dtype }

/-- Concatenation `th.concat(tuple(ts), dim=0)` of a nonempty tuple of tensors. -/
def concatList : List Tensor → Tensor
  | [] => { data := [], dtype := "" }
  | t :: ts => ts.foldl Tensor.concat t

/-- One entry of the metadata record: shape and dtype of the logical
whole tensor. -/
structure MetaEntry where
  shape : List Nat
  dtype : String
deriving DecidableEq

/-- The metadata record, a Python dict from feature key to entry in
insertion order. -/
abbrev Metadata := List (String × MetaEntry)

/-- Python dict assignment `metadata[feat] = entry`: replaces the value
in place when the key exists, appends otherwise. -/
def metaSet : Metadata → String → MetaEntry → Metadata
  | [], k, v => [(k, v)]
  | (k0, v0) :: rest, k, v =>
      if k0 = k then (k, v) :: rest else (k0, v0) :: metaSet rest k v

/-- Lookup in the metadata record. -/
def metaGet (md : Metadata) (k : String) : Option MetaEntry :=
  match md with
  | [] => none
  | (k0, v0) :: rest => if k0 = k then some v0 else metaGet rest k

/-- A shard file is addressed by the sanitized feature key
(`feat.replace("/", "~")`), the shard index and the shard count, as in
`wgth.utils.get_part_file_name`; its content is the shard slice. -/
abbrev FileKey := String × Nat × Nat

/-- The sequence of shard-file writes performed so far (a later write to
the same name overwrites on disk, so equal write sequences give equal
on-disk states). -/
abbrev Files := List (FileKey × Tensor)

/-- Sanitized feature key used in shard file names:
`feat.replace("/", "~")`; the pattern is the single character slash, so
the replacement maps that character to a tilde. -/
def sanitize (k : String) : String :=
  ⟨k.data.map (fun c => if c = '/' then '~' else c)⟩

/-- The shard file wholegraph_processing writes for shard index i. -/
def shardFile (t : Tensor) (feat : String) (num_parts i : Nat) : FileKey × Tensor :=
  ((sanitize feat, i, num_parts),
    t.slice (shard_start t.data.length num_parts i) (shard_end t.data.length num_parts i))

/-- The per-shard loop of wholegraph_processing over the remaining shard
indices.  The external sharded-memory service may fail while
materializing shard `failAt`; the loop then stops with the files written
so far, and the exception propagates (flag true). -/
def wgWriteShards (t : Tensor) (feat : String) (num_parts : Nat) (failAt : Option Nat) :
    List Nat → Files → Files × Bool
  | [], fs => (fs, false)
  | i :: rest, fs =>
      if failAt = some i then (fs, true)
      else wgWriteShards t feat num_parts failAt rest (fs ++ [shardFile t feat num_parts i])

/-- wholegraph_processing: records the metadata entry for `feat` first
(shape and dtype of the logical whole tensor), then writes one shard
file per index in `range num_parts`.  `failAt` injects a failure of the
external service at that shard index. -/
def wholegraph_processing (t : Tensor) (md : Metadata) (feat : String) (fs : Files)
    (num_parts : Nat) (failAt : Option Nat) : Metadata × Files × Bool :=
  let md1 := metaSet md feat { shape := tensorShape t, dtype := t.dtype }
  let wr := wgWriteShards t feat num_parts failAt (List.range num_parts) fs
  (md1, wr.1, wr.2)

/-! ## Python errors raised by the module -/

/-- The Python exceptions the embedded code can raise.  A RuntimeError
whose message names a missing feature key and lists the keys actually
present is kept structured as `missingFeat`; a bare KeyError from a dict
subscript carries only the key. -/
inductive PyErr where
  | indexError : PyErr
  | keyError (key : String) : PyErr
  | missingFeat (key : String) (avail : List String) : PyErr
  | assertionError (msg : String) : PyErr
  | nameError (name : String) : PyErr
  | runtimeError (msg : String) : PyErr
  | fileNotFoundError : PyErr
deriving DecidableEq

/-! ## The two conversion paths of convert_feat_to_wholegraph -/

/-- The per-partition feature mapping loaded by
`dgl.data.utils.load_tensors`: a dict from feature key to tensor. -/
abbrev FeatMap := List (String × Tensor)

/-- Dict lookup `p.get(k)`. -/
def lookupF : FeatMap → String → Option Tensor
  | [], _ => none
  | (k0, t0) :: rest, k => if k0 = k then some t0 else lookupF rest k

/-- Dict keys `p.keys()`. -/
def keysOf (p : FeatMap) : List String := p.map (fun e => e.1)

/-- Python `del p[k]`: removes the entry for `k`. -/
def eraseKey (k : String) : FeatMap → FeatMap
  | [] => []
  | (k0, t0) :: rest => if k0 = k then rest else (k0, t0) :: eraseKey k rest

/-- Deletion `del` applied for each key of a list in order, as done by the final
trimming pass. -/
def eraseAll (ks : List String) (p : FeatMap) : FeatMap :=
  ks.foldl (fun a k => eraseKey k a) p

/-- The tensor stored under `k`, where the caller has established the
key is present. -/
def getFeat (p : FeatMap) (k : String) : Tensor :=
  (lookupF p k).getD { data := [], dtype := "" }

/-- The flattened request list: feature keys `type + "/" + name` in the
iteration order of `fname_dict`. -/
def requestedKeys : List (String × List String) → List String
  | [] => []
  | (ty, fs) :: rest => fs.map (fun f => ty ++ "/" ++ f) ++ requestedKeys rest

/-- The generator `tuple(t[feat] for t in feats_data)` of the
high-memory path: a bare KeyError when some partition mapping lacks the
key. -/
def collectFeat : List FeatMap → String → Except PyErr (List Tensor)
  | [], _ => .ok []
  | p :: ps, k =>
      match lookupF p k with
      | none => .error (.keyError k)
      | some t => (collectFeat ps k).map (fun ts => t :: ts)

/-- The high-memory feature loop (lines 183-200 of wholegraph.py): for
each requested key, check membership in the first loaded partition
(raising a RuntimeError that lists the keys of that mapping), concatenate
the tensors of the key over all partitions (a bare KeyError if a later partition
lacks it), delete the key from every partition mapping, and hand the
concatenation to wholegraph_processing.  `n` is `num_parts`, computed
once as the number of loaded partitions. -/
def processHigh (n : Nat) :
    List String → List FeatMap → Metadata → Files → List FeatMap × Metadata × Files × Option PyErr
  | [], ps, md, fs => (ps, md, fs, none)
  | k :: rest, ps, md, fs =>
      match ps with
      | [] => (ps, md, fs, some .indexError)
      | p0 :: _ =>
          match lookupF p0 k with
          | none => (ps, md, fs, some (.missingFeat k (keysOf p0)))
          | some _ =>
              match collectFeat ps k with
              | .error e => (ps, md, fs, some e)
              | .ok ts =>
                  let whole := concatList ts
                  let ps1 := ps.map (eraseKey k)
                  let r := wholegraph_processing whole md k fs n none
                  processHigh n rest ps1 r.1 r.2.1

/-- The streaming loop of the low-memory path (lines 216-227): walk the
partitions accumulating only the tensor of the current key, checking the key
in each partition as it is loaded and raising the RuntimeError that
lists the keys of that partition. -/
def lowGo (k : String) : List FeatMap → Option Tensor → Nat → Except PyErr (Option Tensor × Nat)
  | [], acc, n => .ok (acc, n)
  | p :: ps, acc, n =>
      match lookupF p k with
      | none => .error (.missingFeat k (keysOf p))
      | some t =>
          lowGo k ps (some (match acc with | none => t | some a => a.concat t)) (n + 1)

/-- One feature of the low-memory path: the streamed concatenation and
the partition count.  With no partitions the trailing `del nfeat` runs
on a name the loop never bound, a NameError. -/
def lowMemFeature (parts : List FeatMap) (k : String) : Except PyErr (Tensor × Nat) :=
  match lowGo k parts none 0 with
  | .error e => .error e
  | .ok (none, _) => .error (.nameError "nfeat")
  | .ok (some t, n) => .ok (t, n)

/-- The low-memory feature loop (lines 209-236): features one at a
time, each streamed over all partitions and handed to
wholegraph_processing. -/
def processLow (parts : List FeatMap) :
    List String → Metadata → Files → Metadata × Files × Option PyErr
  | [], md, fs => (md, fs, none)
  | k :: rest, md, fs =>
      match lowMemFeature parts k with
      | .error e => (md, fs, some e)
      | .ok (t, n) =>
          let r := wholegraph_processing t md k fs n none
          processLow parts rest r.1 r.2.1

/-- The conversion phase of convert_feat_to_wholegraph with
use_low_mem=False: partitions already loaded in numeric order, metadata
record and shard-file writes produced by the high-memory loop.  Returns
the final metadata, the shard-file write sequence, and the exception if
one was raised. -/
def convert_feat_to_wholegraph_highmem (fd : List (String × List String))
    (parts : List FeatMap) : Metadata × Files × Option PyErr :=
  (processHigh parts.length (requestedKeys fd) parts [] []).2

/-- The conversion phase of convert_feat_to_wholegraph with
use_low_mem=True. -/
def convert_feat_to_wholegraph_lowmem (fd : List (String × List String))
    (parts : List FeatMap) : Metadata × Files × Option PyErr :=
  processLow parts (requestedKeys fd) [] []

/-! ## Filesystem model and trim_feat_files -/

/-- The filesystem: a map from path to feature-file content. -/
abbrev FS := String → Option FeatMap

/-- Saving via `dgl.data.utils.save_tensors`: creates or overwrites the file. -/
def FS.write (fsys : FS) (p : String) (c : FeatMap) : FS :=
  fun q => if q = p then some c else fsys q

/-- Renaming via `os.rename`: fails when the source is missing; on POSIX an existing
destination is silently replaced. -/
def FS.rename (fsys : FS) (src dst : String) : Except PyErr FS :=
  match fsys src with
  | none => .error .fileNotFoundError
  | some c => .ok (fun q => if q = dst then some c else if q = src then none else fsys q)

/-- The path `os.path.join(folder, f"part{part}", name)`. -/
def partPath (folder : String) (part : Nat) (name : String) : String :=
  folder ++ "/part" ++ toString part ++ "/" ++ name

/-- The container passed to trim_feat_files as `trimmed_feats`: the
high-memory path passes the list of trimmed dicts of all partitions; the
low-memory trimming pass passes the dict of one partition. -/
inductive TrimArg where
  | ofList (xs : List FeatMap)
  | ofDict (m : FeatMap)

/-- Subscript `trimmed_feats[part]`: index into a list, or subscript a dict whose
keys are the feature-name strings load_tensors produced - an integer
subscript matches no key there and raises. -/
def TrimArg.getPart : TrimArg → Nat → Option FeatMap
  | .ofList xs, i => xs.get? i
  | .ofDict _, _ => none

/-- trim_feat_files (lines 121-145): save `trimmed_feats[part]` to
`new_<file_name>` in the partition directory, rename the original to
`<file_name>.bak`, rename the new file onto the original name. -/
def trim_feat_files (fsys : FS) (trimmed_feats : TrimArg) (folder file_name : String)
    (part : Nat) : Except PyErr FS :=
  match trimmed_feats.getPart part with
  | none => .error (.keyError (toString part))
  | some content =>
      let fs1 := FS.write fsys (partPath folder part ("new_" ++ file_name)) content
      match FS.rename fs1 (partPath folder part file_name)
          (partPath folder part (file_name ++ ".bak")) with
      | .error e => .error e
      | .ok fs2 =>
          FS.rename fs2 (partPath folder part ("new_" ++ file_name))
            (partPath folder part file_name)

/-- Deletion `del feats_data[feat]` for each requested key in order; KeyError
when a key is absent. -/
def delAll : FeatMap → List String → Except PyErr FeatMap
  | p, [] => .ok p
  | p, k :: ks =>
      match lookupF p k with
      | none => .error (.keyError k)
      | some _ => delAll (eraseKey k p) ks

/-- The loop of the final trimming pass of the low-memory path (lines
237-246): per partition, reload the mapping, delete the converted keys,
increment num_parts, then call trim_feat_files with the per-partition
dict and the already-incremented counter. -/
def lowMemTrimGo (ks : List String) (folder file_name : String) :
    List FeatMap → Nat → FS → Except PyErr FS
  | [], _, fsys => .ok fsys
  | p :: ps, n, fsys =>
      match delAll p ks with
      | .error e => .error e
      | .ok feats_data =>
          match trim_feat_files fsys (.ofDict feats_data) folder file_name (n + 1) with
          | .error e => .error e
          | .ok fsys1 => lowMemTrimGo ks folder file_name ps (n + 1) fsys1

/-- The final trimming pass of the low-memory path, starting from
`num_parts = 0`. -/
def lowMemTrimPass (parts : List FeatMap) (ks : List String) (folder file_name : String)
    (fsys : FS) : Except PyErr FS :=
  lowMemTrimGo ks folder file_name parts 0 fsys

/-- The trimming loop of the high-memory path (lines 201-203):
`for part in range(num_parts): trim_feat_files(feats_data, ...)` with
the list of trimmed dicts of all partitions and the 0-indexed counter. -/
def highMemTrimGo (trimmed : List FeatMap) (folder file_name : String) :
    List Nat → FS → Except PyErr FS
  | [], fsys => .ok fsys
  | i :: rest, fsys =>
      match trim_feat_files fsys (.ofList trimmed) folder file_name i with
      | .error e => .error e
      | .ok fsys1 => highMemTrimGo trimmed folder file_name rest fsys1

/-- The trimming loop of the high-memory path over all partitions. -/
def highMemTrimPass (trimmed : List FeatMap) (folder file_name : String) (fsys : FS) :
    Except PyErr FS :=
  highMemTrimGo trimmed folder file_name (List.range trimmed.length) fsys

/-! ## The WholeGraphDistTensor handle -/

/-- The underlying native sharded tensor / embedding object. -/
structure WGTensor where
  shape : List Nat
  dtype : String
  location : String
  hasOptimizer : Bool
deriving DecidableEq

/-- Modelled from the spec: `create_wg_dist_tensor` is called by
WholeGraphDistTensor but not defined in this file; per the spec the
external sharded-memory service creates the underlying tensor, bound to
the sparse optimizer when one is supplied. -/
def create_wg_dist_tensor (shape : List Nat) (dtype location : String) (hasOpt : Bool) :
    WGTensor :=
  { shape := shape, dtype := dtype, location := location, hasOptimizer := hasOpt }

/-- The mutable state of a WholeGraphDistTensor: construction-time
fields plus the optional tensor, optional trainable-module wrapper and
optional attached optimizer. -/
structure WGDistTensorState where
  nnodes : Nat
  embeddingDim : Nat
  name : String
  dtype : String
  location : String
  useWgOptimizer : Bool
  tensor : Option WGTensor
  embModule : Option WGTensor
  optimizer : Option String
deriving DecidableEq

/-- Lexicographic comparison of char sequences by code point, the order
Python string comparison uses; a proper prefix compares less. -/
def charListLe : List Char → List Char → Bool
  | [], _ => true
  | _ :: _, [] => false
  | a :: as, b :: bs =>
      if a.val < b.val then true
      else if b.val < a.val then false
      else charListLe as bs

/-- Python `a >= b` on strings. -/
def pyStrGe (a b : String) : Bool := charListLe b.data a.data

/-- WholeGraphDistTensor.__init__ (lines 388-415): reads shape[0] and
shape[1] (IndexError when the shape has fewer than two entries), asserts
the minimum pylibwholegraph version by string comparison, then either
defers creation (use_wg_optimizer) or eagerly creates the underlying
tensor. -/
def WholeGraphDistTensor_init (shape : List Nat) (dtype name location : String)
    (useWgOptimizer : Bool) (pylibVersion : String) : Except PyErr WGDistTensorState :=
  match shape.get? 0 with
  | none => .error .indexError
  | some nnodes =>
      match shape.get? 1 with
      | none => .error .indexError
      | some dim =>
          if ¬ (pyStrGe pylibVersion "23.12.00" = true) then
            .error (.assertionError "Please upgrade to the latest version of WholeGraph.")
          else if useWgOptimizer then
            .ok { nnodes := nnodes, embeddingDim := dim, name := name, dtype := dtype,
                  location := location, useWgOptimizer := true,
                  tensor := none, embModule := none, optimizer := none }
          else
            .ok { nnodes := nnodes, embeddingDim := dim, name := name, dtype := dtype,
                  location := location, useWgOptimizer := false,
                  tensor := some (create_wg_dist_tensor shape dtype location false),
                  embModule := none, optimizer := none }

/-- WholeGraphDistTensor.attach_wg_optimizer (lines 418-433).  After the
defensive asserts pass, the method assigns self._optimizer and then
evaluates `create_wg_dist_tensor(shape, dtype, location, ...)` - but
`shape`, `dtype` and `location` are not names in scope in the method (nor
module globals), so the call raises NameError with self._optimizer
already set and the tensor and module still absent.  The mutated state
is returned together with the exception, if any. -/
def attach_wg_optimizer (s : WGDistTensorState) (wg_optimizer : String) :
    WGDistTensorState × Option PyErr :=
  if ¬ s.useWgOptimizer then
    (s, some (.assertionError
      "Please create WholeGraphDistTensor tensor with attach_optimizer=True."))
  else
    match s.optimizer with
    | none =>
        if s.tensor.isSome then
          (s, some (.assertionError "Please create optimizer before creating WholeGraph tensor."))
        else if s.embModule.isSome then
          (s, some (.assertionError
            "Please create optimizer before creating WholeGraph embedding module."))
        else
          ({ s with optimizer := some wg_optimizer }, some (.nameError "shape"))
    | some _ => (s, some (.runtimeError "WholeGraph optimizer already exists."))

/-- WholeGraphDistTensor.__getitem__ (lines 509-526): asserts the tensor
exists, then gathers through the external service (modelled as the
success signal). -/
def WholeGraphDistTensor_getitem (s : WGDistTensorState) : Except PyErr Unit :=
  match s.tensor with
  | none => .error (.assertionError "Please create WholeGraph tensor first.")
  | some _ => .ok ()

/-- WholeGraphDistTensor.__setitem__ (lines 489-507): asserts the tensor
exists, casts the values to the declared dtype when needed, then
scatters through the external service (modelled as the success
signal). -/
def WholeGraphDistTensor_setitem (s : WGDistTensorState) : Except PyErr Unit :=
  match s.tensor with
  | none => .error (.assertionError "Please create WholeGraph tensor first.")
  | some _ => .ok ()

theorem metaGet_metaSet_self (md : Metadata) (k : String) (v : MetaEntry) :
    metaGet (metaSet md k v) k = some v := by
  induction md with
  | nil => simp [metaSet, metaGet]
  | cons hd tl ih =>
      obtain ⟨k0, v0⟩ := hd
      by_cases h : k0 = k
      · simp [metaSet, metaGet, h]
      · simp [metaSet, metaGet, h, ih]

theorem wgWriteShards_no_fail (t : Tensor) (feat : String) (n : Nat) (failAt : Option Nat)
    (l : List Nat) (fs : Files) (h : ∀ j ∈ l, failAt ≠ some j) :
    wgWriteShards t feat n failAt l fs = (fs ++ l.map (shardFile t feat n), false) := by
  induction l generalizing fs with
  | nil => simp [wgWriteShards]
  | cons i rest ih =>
      have hi : failAt ≠ some i := h i (by simp)
      simp only [wgWriteShards, hi, if_false, List.map_cons]
      rw [ih _ (fun j hj => h j (by simp [hj]))]
      simp

theorem wgWriteShards_fail_at (t : Tensor) (feat : String) (n i : Nat)
    (l1 l2 : List Nat) (fs : Files) (h1 : i ∉ l1) :
    wgWriteShards t feat n (some i) (l1 ++ i :: l2) fs
      = (fs ++ l1.map (shardFile t feat n), true) := by
  induction l1 generalizing fs with
  | nil => simp [wgWriteShards]
  | cons j rest ih =>
      have hji : ¬ (some i = some (j : Nat)) := by
        intro hc
        exact h1 (by simp [Option.some.inj hc])
      simp only [List.cons_append, wgWriteShards, hji, if_false, List.map_cons,
        List.append_eq]
      rw [ih _ (fun hc => h1 (by simp [hc]))]
      simp

/-- C9: wholegraph_processing records the metadata entry (shape and
dtype of the logical whole tensor) before writing any shard file, so if
the external service fails while materializing shard i, the metadata
entry for the feature and the shard files for indices 0..i-1 remain: the
metadata update is never rolled back on error. -/
theorem wholegraph_processing_metadata_survives_failure
    (t : Tensor) (md : Metadata) (feat : String) (fs : Files) (n i : Nat) (h : i < n) :
    metaGet (wholegraph_processing t md feat fs n (some i)).1 feat
        = some { shape := tensorShape t, dtype := t.dtype } ∧
    (wholegraph_processing t md feat fs n (some i)).2.1
        = fs ++ (List.range i).map (shardFile t feat n) ∧
    (wholegraph_processing t md feat fs n (some i)).2.2 = true := by
  obtain ⟨k, rfl⟩ : ∃ k, n = i + (k + 1) := ⟨n - i - 1, by omega⟩
  have hsplit : List.range (i + (k + 1)) = List.range i ++ i :: ((List.range k).map (i + 1 + ·)) := by
    rw [List.range_add]
    congr 1
    rw [List.range_succ_eq_map]
    simp only [List.map_cons, Nat.add_zero, List.map_map]
    congr 1
    apply List.map_congr_left
    intro a _
    simp only [Function.comp_apply]
    omega
  unfold wholegraph_processing
  rw [hsplit, wgWriteShards_fail_at t feat _ i _ _ fs (by simp)]
  exact ⟨metaGet_metaSet_self md feat _, rfl, rfl⟩

/-- Witness for C9: a 3-row tensor, 3 shards, failure at shard 1. -/
theorem wholegraph_processing_metadata_survives_failure_witness :
    (1 : Nat) < 3 ∧
    (metaGet (wholegraph_processing { data := [[5], [6], [7]], dtype := "torch.float32" }
          [] "n/x" [] 3 (some 1)).1 "n/x"
        = some { shape := tensorShape { data := [[5], [6], [7]], dtype := "torch.float32" },
                 dtype := "torch.float32" } ∧
     (wholegraph_processing { data := [[5], [6], [7]], dtype := "torch.float32" }
          [] "n/x" [] 3 (some 1)).2.1
        = [] ++ (List.range 1).map
            (shardFile { data := [[5], [6], [7]], dtype := "torch.float32" } "n/x" 3) ∧
     (wholegraph_processing { data := [[5], [6], [7]], dtype := "torch.float32" }
          [] "n/x" [] 3 (some 1)).2.2 = true) :=
  ⟨by decide,
    wholegraph_processing_metadata_survives_failure
      { data := [[5], [6], [7]], dtype := "torch.float32" } [] "n/x" [] 3 1 (by decide)⟩

/-- Counterexample to C1 as stated: at R = 5 rows and N = 4 shards,
subpart_size is 2 and the shard ranges are [0,2), [2,4), [4,6), [6,5):
shard 2 ends past the row count, the last range runs backwards, and the
non-negative range lengths sum to 6, not 5. -/
theorem shard_ranges_counterexample :
    subpart_size 5 4 = 2 ∧
    5 < shard_end 5 4 2 ∧
    shard_end 5 4 3 < shard_start 5 4 3 ∧
    (∑ i ∈ Finset.range 4, (shard_end 5 4 i - shard_start 5 4 i)) = 6 := by
  decide

/-- C1 as amended: for every row count R >= 1 and shard count N >= 1
such that the start of the last shard does not pass the row count
((N - 1) * ceil(R / N) <= R), the shard row ranges of
wholegraph_processing are well formed (each start is at most its end),
stay within the R rows, are contiguous (each shard ends where the next
begins), non-overlapping (an earlier shard ends no later than a later
shard starts), their lengths sum to R, and the last shard ends exactly
at R.  Outside that regime some range overruns R or runs backwards, as
the counterexample shows. -/
theorem shard_ranges_partition_rows_in_bounds (R N : Nat) (_hR : 1 ≤ R) (hN : 1 ≤ N)
    (hfit : (N - 1) * subpart_size R N ≤ R) :
    (∀ i, i < N → shard_start R N i ≤ shard_end R N i) ∧
    (∀ i, i < N → shard_end R N i ≤ R) ∧
    (∀ i, i + 1 < N → shard_end R N i = shard_start R N (i + 1)) ∧
    (∀ i j, i < j → j < N → shard_end R N i ≤ shard_start R N j) ∧
    (∑ i ∈ Finset.range N, (shard_end R N i - shard_start R N i)) = R ∧
    shard_end R N (N - 1) = R := by
  refine ⟨?_, ?_, ?_, ?_, ?_, ?_⟩
  · intro i hi
    by_cases hne : i = N - 1
    · subst hne
      simp only [shard_end, if_pos rfl, shard_start]
      exact le_trans (Nat.mul_le_mul_right _ (by omega)) hfit
    · simp only [shard_end, shard_start, hne, if_false]
      exact Nat.mul_le_mul_right _ (by omega)
  · intro i hi
    by_cases hne : i = N - 1
    · subst hne
      simp [shard_end]
    · simp only [shard_end, hne, if_false]
      exact le_trans (Nat.mul_le_mul_right _ (by omega)) hfit
  · intro i hi
    have hne : i ≠ N - 1 := by omega
    simp [shard_end, shard_start, hne]
  · intro i j hij hjN
    have hne : i ≠ N - 1 := by omega
    simp only [shard_end, shard_start, hne, if_false]
    exact Nat.mul_le_mul_right _ (by omega)
  · obtain ⟨M, rfl⟩ : ∃ M, N = M + 1 := ⟨N - 1, by omega⟩
    rw [Finset.sum_range_succ]
    have hlast : shard_end R (M + 1) M = R := by simp [shard_end]
    have hmid : ∀ i ∈ Finset.range M,
        shard_end R (M + 1) i - shard_start R (M + 1) i = subpart_size R (M + 1) := by
      intro i hi
      have hiM : i < M := Finset.mem_range.mp hi
      have hne : i ≠ (M + 1) - 1 := by omega
      simp only [shard_end, shard_start, hne, if_false]
      rw [add_one_mul]
      omega
    rw [Finset.sum_congr rfl hmid, Finset.sum_const, hlast, smul_eq_mul]
    simp only [shard_start, Finset.card_range]
    have hfit2 : M * subpart_size R (M + 1) ≤ R := by simpa using hfit
    omega
  · simp [shard_end]

/-- Witness for the amended C1 at R = 12, N = 5, where
(5 - 1) * ceil(12 / 5) = 12 <= 12. -/
theorem shard_ranges_partition_rows_in_bounds_witness :
    1 ≤ 12 ∧ 1 ≤ 5 ∧ (5 - 1) * subpart_size 12 5 ≤ 12 ∧
    ((∀ i, i < 5 → shard_start 12 5 i ≤ shard_end 12 5 i) ∧
     (∀ i, i < 5 → shard_end 12 5 i ≤ 12) ∧
     (∀ i, i + 1 < 5 → shard_end 12 5 i = shard_start 12 5 (i + 1)) ∧
     (∀ i j, i < j → j < 5 → shard_end 12 5 i ≤ shard_start 12 5 j) ∧
     (∑ i ∈ Finset.range 5, (shard_end 12 5 i - shard_start 12 5 i)) = 12 ∧
     shard_end 12 5 (5 - 1) = 12) :=
  ⟨by decide, by decide, by decide,
    shard_ranges_partition_rows_in_bounds 12 5 (by decide) (by decide) (by decide)⟩

/-- C10: load_wg_feat promotes a recorded 1-dimensional shape [n] to
[n, 1], and uses a length-2 shape unchanged. -/
theorem load_wg_feat_shape_promotes (n : Nat) (s : List Nat) (h2 : s.length = 2) :
    load_wg_feat_shape [n] = [n, 1] ∧ load_wg_feat_shape s = s := by
  constructor
  · simp [load_wg_feat_shape]
  · simp [load_wg_feat_shape, h2]

/-- Witness for C10 at shapes [7] and [7, 5]. -/
theorem load_wg_feat_shape_promotes_witness :
    ([7, 5] : List Nat).length = 2 ∧
    load_wg_feat_shape [7] = [7, 1] ∧ load_wg_feat_shape [7, 5] = [7, 5] :=
  ⟨by decide, (load_wg_feat_shape_promotes 7 [7, 5] (by decide)).1,
    (load_wg_feat_shape_promotes 7 [7, 5] (by decide)).2⟩

theorem lookupF_eraseKey (p : FeatMap) (k k' : String) (h : k' ≠ k) :
    lookupF (eraseKey k p) k' = lookupF p k' := by
  induction p with
  | nil => rfl
  | cons hd tl ih =>
      obtain ⟨k0, t0⟩ := hd
      by_cases h0 : k0 = k
      · simp [eraseKey, lookupF, h0, Ne.symm h]
      · by_cases h1 : k0 = k'
        · simp [eraseKey, lookupF, h0, h1, h]
        · simp [eraseKey, lookupF, h0, h1, h, ih]

theorem lookupF_eraseAll (ks : List String) (p : FeatMap) (k : String) (h : k ∉ ks) :
    lookupF (eraseAll ks p) k = lookupF p k := by
  induction ks generalizing p with
  | nil => rfl
  | cons k0 rest ih =>
      have hk : k ∉ rest := fun hc => h (by simp [hc])
      have hne : k ≠ k0 := fun hc => h (by simp [hc])
      calc lookupF (eraseAll (k0 :: rest) p) k
          = lookupF (eraseAll rest (eraseKey k0 p)) k := rfl
        _ = lookupF (eraseKey k0 p) k := ih (eraseKey k0 p) hk
        _ = lookupF p k := lookupF_eraseKey p k0 k hne

theorem collectFeat_all (ps : List FeatMap) (k : String)
    (h : ∀ p ∈ ps, lookupF p k ≠ none) :
    collectFeat ps k = .ok (ps.map (fun p => getFeat p k)) := by
  induction ps with
  | nil => rfl
  | cons p rest ih =>
      obtain ⟨t, ht⟩ := Option.ne_none_iff_exists'.mp (h p (by simp))
      have hrest := ih (fun q hq => h q (by simp [hq]))
      simp only [collectFeat, ht, hrest, List.map_cons, Except.map]
      have : getFeat p k = t := by simp [getFeat, ht]
      rw [this]

theorem collectFeat_has_none (ps : List FeatMap) (k : String)
    (h : ∃ p ∈ ps, lookupF p k = none) :
    collectFeat ps k = .error (.keyError k) := by
  induction ps with
  | nil => simp at h
  | cons p rest ih =>
      by_cases hp : lookupF p k = none
      · simp [collectFeat, hp]
      · obtain ⟨t, ht⟩ := Option.ne_none_iff_exists'.mp hp
        obtain ⟨q, hq, hqn⟩ := h
        rcases List.mem_cons.mp hq with rfl | hqr
        · exact absurd hqn hp
        · simp [collectFeat, ht, ih ⟨q, hqr, hqn⟩, Except.map]

theorem lowGo_acc (k : String) (ps : List FeatMap) (a : Tensor) (n : Nat)
    (h : ∀ p ∈ ps, lookupF p k ≠ none) :
    lowGo k ps (some a) n
      = .ok (some ((ps.map (fun p => getFeat p k)).foldl Tensor.concat a), n + ps.length) := by
  induction ps generalizing a n with
  | nil => simp [lowGo]
  | cons p rest ih =>
      obtain ⟨t, ht⟩ := Option.ne_none_iff_exists'.mp (h p (by simp))
      have hga : getFeat p k = t := by simp [getFeat, ht]
      simp only [lowGo, ht, ih _ _ (fun q hq => h q (by simp [hq])), List.map_cons,
        List.foldl_cons, hga, List.length_cons]
      have hn : n + 1 + rest.length = n + (rest.length + 1) := by omega
      rw [hn]

theorem lowMemFeature_all (parts : List FeatMap) (k : String) (hne : parts ≠ [])
    (h : ∀ p ∈ parts, lookupF p k ≠ none) :
    lowMemFeature parts k
      = .ok (concatList (parts.map (fun p => getFeat p k)), parts.length) := by
  obtain ⟨p0, rest, rfl⟩ : ∃ p0 rest, parts = p0 :: rest := by
    cases parts with
    | nil => exact absurd rfl hne
    | cons p0 rest => exact ⟨p0, rest, rfl⟩
  obtain ⟨t0, ht0⟩ := Option.ne_none_iff_exists'.mp (h p0 (by simp))
  have hg0 : getFeat p0 k = t0 := by simp [getFeat, ht0]
  unfold lowMemFeature
  simp only [lowGo, ht0, lowGo_acc k rest t0 1 (fun q hq => h q (by simp [hq]))]
  simp [concatList, hg0, Nat.add_comm]

theorem lowGo_missing (k : String) (q1 : List FeatMap) (qbad : FeatMap) (q2 : List FeatMap)
    (hq1 : ∀ p ∈ q1, lookupF p k ≠ none) (hbad : lookupF qbad k = none) :
    ∀ (acc : Option Tensor) (n : Nat),
      lowGo k (q1 ++ qbad :: q2) acc n = .error (.missingFeat k (keysOf qbad)) := by
  induction q1 with
  | nil => intro acc n; simp [lowGo, hbad]
  | cons p rest ih =>
      intro acc n
      obtain ⟨t, ht⟩ := Option.ne_none_iff_exists'.mp (hq1 p (by simp))
      simp only [List.cons_append, lowGo, ht]
      exact ih (fun q hq => hq1 q (by simp [hq])) _ _

theorem lowMemFeature_missing (q1 : List FeatMap) (qbad : FeatMap) (q2 : List FeatMap)
    (k : String) (hq1 : ∀ p ∈ q1, lookupF p k ≠ none) (hbad : lookupF qbad k = none) :
    lowMemFeature (q1 ++ qbad :: q2) k = .error (.missingFeat k (keysOf qbad)) := by
  unfold lowMemFeature
  rw [lowGo_missing k q1 qbad q2 hq1 hbad]

theorem wholegraph_processing_none (t : Tensor) (md : Metadata) (feat : String)
    (fs : Files) (n : Nat) :
    wholegraph_processing t md feat fs n none
      = (metaSet md feat { shape := tensorShape t, dtype := t.dtype },
         fs ++ (List.range n).map (shardFile t feat n), false) := by
  unfold wholegraph_processing
  rw [wgWriteShards_no_fail t feat n none (List.range n) fs (by simp)]

theorem map_getFeat_eq_map_lookup (l : List FeatMap) (k : String) :
    l.map (fun p => getFeat p k)
      = (l.map (fun p => lookupF p k)).map (fun o => o.getD { data := [], dtype := "" }) := by
  rw [List.map_map]
  rfl

theorem processHigh_eq_processLow (parts : List FeatMap) (hpne : parts ≠ []) :
    ∀ (ks : List String) (ps : List FeatMap) (md : Metadata) (fs : Files),
      (∀ k ∈ ks, ps.map (fun p => lookupF p k) = parts.map (fun p => lookupF p k)) →
      (∀ k ∈ ks, ∀ p ∈ parts, lookupF p k ≠ none) →
      ks.Nodup →
      (processHigh parts.length ks ps md fs).2 = processLow parts ks md fs := by
  intro ks
  induction ks with
  | nil => intro ps md fs _ _ _; rfl
  | cons k rest ih =>
      intro ps md fs hagree hall hnd
      have hpslen : ps.length = parts.length := by
        have h := congrArg List.length (hagree k (by simp))
        simpa using h
      obtain ⟨q0, qs', hq⟩ : ∃ q0 qs', parts = q0 :: qs' := by
        cases parts with
        | nil => exact absurd rfl hpne
        | cons q0 qs' => exact ⟨q0, qs', rfl⟩
      obtain ⟨p0, ps', rfl⟩ : ∃ p0 ps', ps = p0 :: ps' := by
        cases ps with
        | nil => rw [hq] at hpslen; simp at hpslen
        | cons p0 ps' => exact ⟨p0, ps', rfl⟩
      have hhead : lookupF p0 k = lookupF q0 k := by
        have h := hagree k (by simp)
        rw [hq] at h
        simp only [List.map_cons, List.cons.injEq] at h
        exact h.1
      have hq0 : lookupF q0 k ≠ none := hall k (by simp) q0 (by rw [hq]; simp)
      obtain ⟨t0, ht0⟩ : ∃ t0, lookupF p0 k = some t0 := by
        rw [hhead]
        exact Option.ne_none_iff_exists'.mp hq0
      have hallps : ∀ p ∈ p0 :: ps', lookupF p k ≠ none := by
        intro p hp
        have hmem : lookupF p k ∈ (p0 :: ps').map (fun p => lookupF p k) :=
          List.mem_map_of_mem _ hp
        rw [hagree k (by simp)] at hmem
        obtain ⟨q, hqmem, hqeq⟩ := List.mem_map.mp hmem
        rw [← hqeq]
        exact hall k (by simp) q hqmem
      have hcoll : collectFeat (p0 :: ps') k
          = .ok ((p0 :: ps').map (fun p => getFeat p k)) :=
        collectFeat_all _ _ hallps
      have hget : (p0 :: ps').map (fun p => getFeat p k) = parts.map (fun p => getFeat p k) := by
        rw [map_getFeat_eq_map_lookup, map_getFeat_eq_map_lookup, hagree k (by simp)]
      have hlow := lowMemFeature_all parts k hpne (hall k (by simp))
      have hkrest : k ∉ rest := (List.nodup_cons.mp hnd).1
      simp only [processHigh, processLow, ht0, hcoll, hlow, hget, hpslen]
      apply ih
      · intro k' hk'
        have hne : k' ≠ k := fun hc => hkrest (hc ▸ hk')
        have hcomm : ((p0 :: ps').map (eraseKey k)).map (fun p => lookupF p k')
            = (p0 :: ps').map (fun p => lookupF p k') := by
          rw [List.map_map]
          apply List.map_congr_left
          intro p _
          exact lookupF_eraseKey p k k' hne
        rw [hcomm]
        exact hagree k' (by simp [hk'])
      · intro k' hk'
        exact hall k' (by simp [hk'])
      · exact (List.nodup_cons.mp hnd).2

/-- C2: on identical partitioned input in which every requested feature
key (the keys are pairwise distinct) is present in every partition, the
high-memory and low-memory conversion paths produce identical metadata
records, identical shard-file write sequences, and the same (absent)
exception. -/
theorem convert_highmem_eq_lowmem (fd : List (String × List String)) (parts : List FeatMap)
    (hne : parts ≠ [])
    (hall : ∀ k ∈ requestedKeys fd, ∀ p ∈ parts, lookupF p k ≠ none)
    (hnodup : (requestedKeys fd).Nodup) :
    convert_feat_to_wholegraph_highmem fd parts = convert_feat_to_wholegraph_lowmem fd parts :=
  processHigh_eq_processLow parts hne (requestedKeys fd) parts [] []
    (fun _ _ => rfl) hall hnodup

/-- Witness for C2: two partitions, two requested features. -/
theorem convert_highmem_eq_lowmem_witness :
    ([[("n/x", { data := [[1, 2]], dtype := "torch.float32" }),
       ("n/y", { data := [[3]], dtype := "torch.int64" })],
      [("n/x", { data := [[4, 5]], dtype := "torch.float32" }),
       ("n/y", { data := [[6]], dtype := "torch.int64" })]] : List FeatMap) ≠ [] ∧
    (∀ k ∈ requestedKeys [("n", ["x", "y"])],
      ∀ p ∈ ([[("n/x", { data := [[1, 2]], dtype := "torch.float32" }),
               ("n/y", { data := [[3]], dtype := "torch.int64" })],
              [("n/x", { data := [[4, 5]], dtype := "torch.float32" }),
               ("n/y", { data := [[6]], dtype := "torch.int64" })]] : List FeatMap),
        lookupF p k ≠ none) ∧
    (requestedKeys [("n", ["x", "y"])]).Nodup ∧
    convert_feat_to_wholegraph_highmem [("n", ["x", "y"])]
        [[("n/x", { data := [[1, 2]], dtype := "torch.float32" }),
          ("n/y", { data := [[3]], dtype := "torch.int64" })],
         [("n/x", { data := [[4, 5]], dtype := "torch.float32" }),
          ("n/y", { data := [[6]], dtype := "torch.int64" })]]
      = convert_feat_to_wholegraph_lowmem [("n", ["x", "y"])]
        [[("n/x", { data := [[1, 2]], dtype := "torch.float32" }),
          ("n/y", { data := [[3]], dtype := "torch.int64" })],
         [("n/x", { data := [[4, 5]], dtype := "torch.float32" }),
          ("n/y", { data := [[6]], dtype := "torch.int64" })]] :=
  ⟨by decide, by decide, by decide,
    convert_highmem_eq_lowmem [("n", ["x", "y"])] _ (by decide) (by decide) (by decide)⟩

theorem processLow_pre (parts : List FeatMap) (hne : parts ≠ []) :
    ∀ (pre tail : List String) (md : Metadata) (fs : Files),
      (∀ k ∈ pre, ∀ p ∈ parts, lookupF p k ≠ none) →
      ∃ md1 fs1, processLow parts (pre ++ tail) md fs = processLow parts tail md1 fs1
        ∧ ∀ e ∈ fs1, e ∈ fs ∨ e.1.1 ∈ pre.map sanitize := by
  intro pre
  induction pre with
  | nil => exact fun tail md fs _ => ⟨md, fs, rfl, fun e he => .inl he⟩
  | cons k rest ih =>
      intro tail md fs hall
      have hlow := lowMemFeature_all parts k hne (hall k (by simp))
      obtain ⟨md1, fs1, heq, hsub⟩ :=
        ih tail
          (metaSet md k { shape := tensorShape (concatList (parts.map (fun p => getFeat p k))),
                          dtype := (concatList (parts.map (fun p => getFeat p k))).dtype })
          (fs ++ (List.range parts.length).map
            (shardFile (concatList (parts.map (fun p => getFeat p k))) k parts.length))
          (fun k' hk' => hall k' (by simp [hk']))
      refine ⟨md1, fs1, ?_, ?_⟩
      · simp only [List.cons_append, processLow, hlow, wholegraph_processing_none]
        exact heq
      · intro e he
        rcases hsub e he with h1 | h2
        · rcases List.mem_append.mp h1 with ha | hb
          · exact .inl ha
          · right
            obtain ⟨i, _, rfl⟩ := List.mem_map.mp hb
            simp [shardFile]
        · right
          simp only [List.map_cons, List.mem_cons]
          exact .inr h2

theorem processHigh_pre :
    ∀ (pre : List String) (tail : List String) (parts : List FeatMap) (md : Metadata)
      (fs : Files),
      parts ≠ [] →
      (∀ k ∈ pre, ∀ p ∈ parts, lookupF p k ≠ none) →
      pre.Nodup →
      ∃ md1 fs1, processHigh parts.length (pre ++ tail) parts md fs
          = processHigh parts.length tail (parts.map (eraseAll pre)) md1 fs1
        ∧ ∀ e ∈ fs1, e ∈ fs ∨ e.1.1 ∈ pre.map sanitize := by
  intro pre
  induction pre with
  | nil =>
      intro tail parts md fs _ _ _
      refine ⟨md, fs, ?_, fun e he => .inl he⟩
      have hmap : ∀ (l : List FeatMap), List.map (eraseAll []) l = l := by
        intro l
        induction l with
        | nil => rfl
        | cons p rest ih => simp only [List.map_cons, ih]; rfl
      rw [hmap]
      rfl
  | cons k rest ih =>
      intro tail parts md fs hne hall hnd
      obtain ⟨p0, ps', rfl⟩ : ∃ p0 ps', parts = p0 :: ps' := by
        cases parts with
        | nil => exact absurd rfl hne
        | cons p0 ps' => exact ⟨p0, ps', rfl⟩
      obtain ⟨t0, ht0⟩ := Option.ne_none_iff_exists'.mp (hall k (by simp) p0 (by simp))
      have hcoll : collectFeat (p0 :: ps') k
          = .ok ((p0 :: ps').map (fun p => getFeat p k)) :=
        collectFeat_all _ _ (hall k (by simp))
      have hrest : ∀ k' ∈ rest, ∀ p ∈ (p0 :: ps').map (eraseKey k), lookupF p k' ≠ none := by
        intro k' hk' p hp
        obtain ⟨q, hq, rfl⟩ := List.mem_map.mp hp
        have hne' : k' ≠ k := fun hc => (List.nodup_cons.mp hnd).1 (hc ▸ hk')
        rw [lookupF_eraseKey q k k' hne']
        exact hall k' (by simp [hk']) q hq
      obtain ⟨md1, fs1, heq, hsub⟩ :=
        ih tail ((p0 :: ps').map (eraseKey k))
          (metaSet md k
            { shape := tensorShape (concatList ((p0 :: ps').map (fun p => getFeat p k))),
              dtype := (concatList ((p0 :: ps').map (fun p => getFeat p k))).dtype })
          (fs ++ (List.range (p0 :: ps').length).map
            (shardFile (concatList ((p0 :: ps').map (fun p => getFeat p k))) k
              (p0 :: ps').length))
          (by simp) hrest (List.nodup_cons.mp hnd).2
      refine ⟨md1, fs1, ?_, ?_⟩
      · simp only [List.cons_append, processHigh, ht0, hcoll, wholegraph_processing_none,
          List.append_eq]
        rw [List.length_map] at heq
        rw [heq, List.map_map]
        have hcomp : ((p0 :: ps').map (eraseAll rest ∘ eraseKey k))
            = (p0 :: ps').map (eraseAll (k :: rest)) := by
          apply List.map_congr_left
          intro p _
          rfl
        rw [hcomp]
      · intro e he
        rcases hsub e he with h1 | h2
        · rcases List.mem_append.mp h1 with ha | hb
          · exact .inl ha
          · right
            obtain ⟨i, _, rfl⟩ := List.mem_map.mp hb
            simp [shardFile]
        · right
          simp only [List.map_cons, List.mem_cons]
          exact .inr h2

/-- Counterexample to C7 as stated: with the key "n/x" present in
partition 0 but absent from partition 1, the high-memory path fails with
a bare KeyError that names the key but carries no listing of the keys
present in partition 1; the descriptive RuntimeError is not raised. -/
theorem convert_missing_feature_counterexample :
    (convert_feat_to_wholegraph_highmem [("n", ["x"])]
        [[("n/x", { data := [[1]], dtype := "torch.float32" })], []]).2.2
      = some (PyErr.keyError "n/x") ∧
    (convert_feat_to_wholegraph_highmem [("n", ["x"])]
        [[("n/x", { data := [[1]], dtype := "torch.float32" })], []]).2.2
      ≠ some (PyErr.missingFeat "n/x" []) := by
  constructor
  · decide
  · decide

/-- C7 as amended: when a requested key `k` (all keys requested before
it being present everywhere) is absent from some partition, conversion
fails and no shard file of `k` is written.  The low-memory path raises
the RuntimeError naming `k` and listing the keys of the first partition
that lacks it.  The high-memory path raises that descriptive error only
when `k` is missing from the in-memory mapping of partition 0 (listing
the remaining keys of that mapping, the already-converted ones having been
deleted); when `k` is present in partition 0 but absent from a later
partition the failure is a bare KeyError naming only the key. -/
theorem convert_missing_feature_reporting
    (fd : List (String × List String)) (parts q1 q2 : List FeatMap) (qbad : FeatMap)
    (pre post : List String) (k : String)
    (hparts : parts = q1 ++ qbad :: q2)
    (hreq : requestedKeys fd = pre ++ k :: post)
    (hnd : (pre ++ k :: post).Nodup)
    (hpre : ∀ k' ∈ pre, ∀ p ∈ parts, lookupF p k' ≠ none)
    (hq1 : ∀ p ∈ q1, lookupF p k ≠ none)
    (hbad : lookupF qbad k = none)
    (hsan : sanitize k ∉ pre.map sanitize) :
    (convert_feat_to_wholegraph_lowmem fd parts).2.2
        = some (.missingFeat k (keysOf qbad)) ∧
    (∀ e ∈ (convert_feat_to_wholegraph_lowmem fd parts).2.1, e.1.1 ≠ sanitize k) ∧
    (q1 = [] → (convert_feat_to_wholegraph_highmem fd parts).2.2
        = some (.missingFeat k (keysOf (eraseAll pre qbad)))) ∧
    (q1 ≠ [] → (convert_feat_to_wholegraph_highmem fd parts).2.2
        = some (.keyError k)) ∧
    (∀ e ∈ (convert_feat_to_wholegraph_highmem fd parts).2.1, e.1.1 ≠ sanitize k) := by
  have hne : parts ≠ [] := by
    rw [hparts]
    cases q1 <;> simp
  have hnd3 := List.nodup_append.mp hnd
  have hkpre : k ∉ pre := fun hk => hnd3.2.2 hk (by simp)
  have hpreNodup : pre.Nodup := hnd3.1
  obtain ⟨mdl, fsl, heql, hsubl⟩ := processLow_pre parts hne pre (k :: post) [] [] hpre
  have hmiss : lowMemFeature parts k = .error (.missingFeat k (keysOf qbad)) := by
    rw [hparts]
    exact lowMemFeature_missing q1 qbad q2 k hq1 hbad
  have hlowres : convert_feat_to_wholegraph_lowmem fd parts
      = (mdl, fsl, some (.missingFeat k (keysOf qbad))) := by
    unfold convert_feat_to_wholegraph_lowmem
    rw [hreq, heql]
    simp only [processLow, hmiss]
  obtain ⟨mdh, fsh, heqh, hsubh⟩ := processHigh_pre pre (k :: post) parts [] [] hne hpre hpreNodup
  have hfsl1 : ∀ e ∈ fsl, e.1.1 ≠ sanitize k := by
    intro e he hc
    rcases hsubl e he with h0 | h1
    · simp at h0
    · rw [hc] at h1
      exact hsan h1
  have hfsh1 : ∀ e ∈ fsh, e.1.1 ≠ sanitize k := by
    intro e he hc
    rcases hsubh e he with h0 | h1
    · simp at h0
    · rw [hc] at h1
      exact hsan h1
  have hbadF : lookupF (eraseAll pre qbad) k = none := by
    rw [lookupF_eraseAll pre qbad k hkpre]
    exact hbad
  have hhighres : (convert_feat_to_wholegraph_highmem fd parts).2.1 = fsh ∧
      (q1 = [] → (convert_feat_to_wholegraph_highmem fd parts).2.2
          = some (.missingFeat k (keysOf (eraseAll pre qbad)))) ∧
      (q1 ≠ [] → (convert_feat_to_wholegraph_highmem fd parts).2.2
          = some (.keyError k)) := by
    unfold convert_feat_to_wholegraph_highmem
    rw [hreq, heqh]
    cases q1 with
    | nil =>
        have hstep : processHigh parts.length (k :: post) (parts.map (eraseAll pre)) mdh fsh
            = (parts.map (eraseAll pre), mdh, fsh,
               some (.missingFeat k (keysOf (eraseAll pre qbad)))) := by
          rw [hparts]
          simp only [List.nil_append, List.map_cons, processHigh, hbadF]
        rw [hstep]
        exact ⟨rfl, fun _ => rfl, fun h => absurd rfl h⟩
    | cons p0 q1t =>
        obtain ⟨t0, ht0⟩ := Option.ne_none_iff_exists'.mp (hq1 p0 (by simp))
        have ht0F : lookupF (eraseAll pre p0) k = some t0 := by
          rw [lookupF_eraseAll pre p0 k hkpre]
          exact ht0
        have hcoll : collectFeat (parts.map (eraseAll pre)) k = .error (.keyError k) := by
          apply collectFeat_has_none
          refine ⟨eraseAll pre qbad, ?_, hbadF⟩
          apply List.mem_map_of_mem
          rw [hparts]
          simp
        have hstep : processHigh parts.length (k :: post) (parts.map (eraseAll pre)) mdh fsh
            = (parts.map (eraseAll pre), mdh, fsh, some (.keyError k)) := by
          rw [hparts] at hcoll ⊢
          simp only [List.cons_append] at hcoll ⊢
          have hcoll2 := hcoll
          simp only [List.map_cons] at hcoll2
          simp only [List.map_cons, processHigh, ht0F, hcoll, hcoll2]
        rw [hstep]
        exact ⟨rfl, fun h => by simp at h, fun _ => rfl⟩
  refine ⟨?_, ?_, hhighres.2.1, hhighres.2.2, ?_⟩
  · rw [hlowres]
  · rw [hlowres]
    exact hfsl1
  · intro e he
    rw [hhighres.1] at he
    exact hfsh1 e he

/-- Witness for the amended C7: key "n/y" requested after "n/x",
present in partition 0 but missing from partition 1. -/
theorem convert_missing_feature_reporting_witness :
    ([[("n/x", { data := [[1]], dtype := "f" }), ("n/y", { data := [[2]], dtype := "f" })],
      [("n/x", { data := [[3]], dtype := "f" })]] : List FeatMap)
      = [[("n/x", { data := [[1]], dtype := "f" }), ("n/y", { data := [[2]], dtype := "f" })]]
        ++ [("n/x", { data := [[3]], dtype := "f" })] :: [] ∧
    requestedKeys [("n", ["x", "y"])] = ["n/x"] ++ "n/y" :: [] ∧
    (["n/x"] ++ "n/y" :: []).Nodup ∧
    (∀ k' ∈ ["n/x"],
      ∀ p ∈ ([[("n/x", { data := [[1]], dtype := "f" }),
                ("n/y", { data := [[2]], dtype := "f" })],
               [("n/x", { data := [[3]], dtype := "f" })]] : List FeatMap),
        lookupF p k' ≠ none) ∧
    (∀ p ∈ ([[("n/x", { data := [[1]], dtype := "f" }),
              ("n/y", { data := [[2]], dtype := "f" })]] : List FeatMap),
      lookupF p "n/y" ≠ none) ∧
    lookupF [("n/x", { data := [[3]], dtype := "f" })] "n/y" = none ∧
    sanitize "n/y" ∉ List.map sanitize ["n/x"] ∧
    ((convert_feat_to_wholegraph_lowmem [("n", ["x", "y"])]
        [[("n/x", { data := [[1]], dtype := "f" }), ("n/y", { data := [[2]], dtype := "f" })],
         [("n/x", { data := [[3]], dtype := "f" })]]).2.2
        = some (.missingFeat "n/y" (keysOf [("n/x", { data := [[3]], dtype := "f" })])) ∧
     (∀ e ∈ (convert_feat_to_wholegraph_lowmem [("n", ["x", "y"])]
          [[("n/x", { data := [[1]], dtype := "f" }), ("n/y", { data := [[2]], dtype := "f" })],
           [("n/x", { data := [[3]], dtype := "f" })]]).2.1, e.1.1 ≠ sanitize "n/y") ∧
     (([[("n/x", { data := [[1]], dtype := "f" }),
          ("n/y", { data := [[2]], dtype := "f" })]] : List FeatMap) = [] →
        (convert_feat_to_wholegraph_highmem [("n", ["x", "y"])]
          [[("n/x", { data := [[1]], dtype := "f" }), ("n/y", { data := [[2]], dtype := "f" })],
           [("n/x", { data := [[3]], dtype := "f" })]]).2.2
          = some (.missingFeat "n/y"
              (keysOf (eraseAll ["n/x"] [("n/x", { data := [[3]], dtype := "f" })])))) ∧
     (([[("n/x", { data := [[1]], dtype := "f" }),
          ("n/y", { data := [[2]], dtype := "f" })]] : List FeatMap) ≠ [] →
        (convert_feat_to_wholegraph_highmem [("n", ["x", "y"])]
          [[("n/x", { data := [[1]], dtype := "f" }), ("n/y", { data := [[2]], dtype := "f" })],
           [("n/x", { data := [[3]], dtype := "f" })]]).2.2
          = some (.keyError "n/y")) ∧
     (∀ e ∈ (convert_feat_to_wholegraph_highmem [("n", ["x", "y"])]
          [[("n/x", { data := [[1]], dtype := "f" }), ("n/y", { data := [[2]], dtype := "f" })],
           [("n/x", { data := [[3]], dtype := "f" })]]).2.1, e.1.1 ≠ sanitize "n/y")) :=
  ⟨by decide, by decide, by decide, by decide, by decide, by decide, by decide,
    convert_missing_feature_reporting [("n", ["x", "y"])]
      [[("n/x", { data := [[1]], dtype := "f" }), ("n/y", { data := [[2]], dtype := "f" })],
       [("n/x", { data := [[3]], dtype := "f" })]]
      [[("n/x", { data := [[1]], dtype := "f" }), ("n/y", { data := [[2]], dtype := "f" })]]
      [] [("n/x", { data := [[3]], dtype := "f" })]
      ["n/x"] [] "n/y"
      (by decide) (by decide) (by decide) (by decide) (by decide) (by decide) (by decide)⟩

theorem FS.rename_of_some (fsys : FS) (src dst : String) (c : FeatMap)
    (h : fsys src = some c) :
    FS.rename fsys src dst
      = .ok (fun q => if q = dst then some c else if q = src then none else fsys q) := by
  unfold FS.rename
  rw [h]

/-- C8: running trim_feat_files twice in a row for the same partition
with the same trimmed contents succeeds both times even though the .bak
file already exists after the first run (os.rename replaces it), keeps
the remaining feature data in the feature file, and leaves a .bak file
in place - the trimmer never deletes it. -/
theorem trim_feat_files_retry_safe
    (folder file_name : String) (xs : List FeatMap) (p : Nat) (fs0 : FS)
    (content orig : FeatMap)
    (hget : xs.get? p = some content)
    (horig : fs0 (partPath folder p file_name) = some orig)
    (hd1 : partPath folder p ("new_" ++ file_name) ≠ partPath folder p file_name)
    (hd2 : partPath folder p (file_name ++ ".bak") ≠ partPath folder p file_name)
    (hd3 : partPath folder p ("new_" ++ file_name) ≠ partPath folder p (file_name ++ ".bak")) :
    ∃ fsa fsb,
      trim_feat_files fs0 (.ofList xs) folder file_name p = .ok fsa ∧
      trim_feat_files fsa (.ofList xs) folder file_name p = .ok fsb ∧
      fsa (partPath folder p (file_name ++ ".bak")) = some orig ∧
      fsb (partPath folder p file_name) = some content ∧
      fsb (partPath folder p (file_name ++ ".bak")) = some content := by
  set nP := partPath folder p ("new_" ++ file_name) with hnP
  set mP := partPath folder p file_name with hmP
  set bP := partPath folder p (file_name ++ ".bak") with hbP
  set f1 : FS := fun q =>
      if q = mP then some content else if q = nP then none
      else if q = bP then some orig else if q = mP then none
      else FS.write fs0 nP content q with hf1
  set f2 : FS := fun q =>
      if q = mP then some content else if q = nP then none
      else if q = bP then some content else if q = mP then none
      else FS.write f1 nP content q with hf2
  have h1 : trim_feat_files fs0 (.ofList xs) folder file_name p = .ok f1 := by
    simp only [trim_feat_files, TrimArg.getPart, hget]
    rw [FS.rename_of_some _ _ _ orig (by simp [FS.write, Ne.symm hd1, horig])]
    exact FS.rename_of_some _ _ _ content (by simp [FS.write, hd3, hd1])
  have hf1main : f1 mP = some content := by
    rw [hf1]
    simp
  have hf1bak : f1 bP = some orig := by
    rw [hf1]
    simp [hd2, Ne.symm hd3]
  have h2 : trim_feat_files f1 (.ofList xs) folder file_name p = .ok f2 := by
    simp only [trim_feat_files, TrimArg.getPart, hget]
    rw [FS.rename_of_some _ _ _ content (by simp [FS.write, Ne.symm hd1, hf1main])]
    exact FS.rename_of_some _ _ _ content (by simp [FS.write, hd3, hd1])
  have hf2main : f2 mP = some content := by
    rw [hf2]
    simp
  have hf2bak : f2 bP = some content := by
    rw [hf2]
    simp [hd2, Ne.symm hd3]
  exact ⟨f1, f2, h1, h2, hf1bak, hf2main, hf2bak⟩

/-- Witness for C8 at partition 0 of folder "d". -/
theorem trim_feat_files_retry_safe_witness :
    ([[("n/y", { data := [[2]], dtype := "f" })]] : List FeatMap).get? 0
        = some [("n/y", { data := [[2]], dtype := "f" })] ∧
    (FS.write (fun _ => none) (partPath "d" 0 "node_feat.dgl")
        [("n/x", { data := [[1]], dtype := "f" }), ("n/y", { data := [[2]], dtype := "f" })])
      (partPath "d" 0 "node_feat.dgl")
        = some [("n/x", { data := [[1]], dtype := "f" }),
                ("n/y", { data := [[2]], dtype := "f" })] ∧
    partPath "d" 0 ("new_" ++ "node_feat.dgl") ≠ partPath "d" 0 "node_feat.dgl" ∧
    partPath "d" 0 ("node_feat.dgl" ++ ".bak") ≠ partPath "d" 0 "node_feat.dgl" ∧
    partPath "d" 0 ("new_" ++ "node_feat.dgl") ≠ partPath "d" 0 ("node_feat.dgl" ++ ".bak") ∧
    (∃ fsa fsb,
      trim_feat_files
          (FS.write (fun _ => none) (partPath "d" 0 "node_feat.dgl")
            [("n/x", { data := [[1]], dtype := "f" }),
             ("n/y", { data := [[2]], dtype := "f" })])
          (.ofList [[("n/y", { data := [[2]], dtype := "f" })]]) "d" "node_feat.dgl" 0
        = .ok fsa ∧
      trim_feat_files fsa (.ofList [[("n/y", { data := [[2]], dtype := "f" })]])
          "d" "node_feat.dgl" 0 = .ok fsb ∧
      fsa (partPath "d" 0 ("node_feat.dgl" ++ ".bak"))
        = some [("n/x", { data := [[1]], dtype := "f" }),
                ("n/y", { data := [[2]], dtype := "f" })] ∧
      fsb (partPath "d" 0 "node_feat.dgl") = some [("n/y", { data := [[2]], dtype := "f" })] ∧
      fsb (partPath "d" 0 ("node_feat.dgl" ++ ".bak"))
        = some [("n/y", { data := [[2]], dtype := "f" })]) :=
  ⟨by decide, by decide, by decide, by decide, by decide,
    trim_feat_files_retry_safe "d" "node_feat.dgl"
      [[("n/y", { data := [[2]], dtype := "f" })]] 0
      (FS.write (fun _ => none) (partPath "d" 0 "node_feat.dgl")
        [("n/x", { data := [[1]], dtype := "f" }), ("n/y", { data := [[2]], dtype := "f" })])
      [("n/y", { data := [[2]], dtype := "f" })]
      [("n/x", { data := [[1]], dtype := "f" }), ("n/y", { data := [[2]], dtype := "f" })]
      (by decide) (by decide) (by decide) (by decide) (by decide)⟩

/-- C5 evidence: on a one-partition input whose feature file is present
under part0, the final trimming pass of the low-memory path calls
trim_feat_files with the partition counter already incremented to 1 and
with the per-partition dict in place of the list of per-partition
dicts, so the very first trim raises (integer subscript finds no key)
and no partition is trimmed; the high-memory loop on the same filesystem
trims partition 0 successfully. -/
theorem lowmem_trim_pass_wrong_partition_index :
    lowMemTrimPass [[("n/x", { data := [[1]], dtype := "f" })]] ["n/x"] "d" "node_feat.dgl"
        (FS.write (fun _ => none) (partPath "d" 0 "node_feat.dgl")
          [("n/x", { data := [[1]], dtype := "f" })])
      = .error (.keyError (toString 1)) ∧
    (∃ f, highMemTrimPass [[]] "d" "node_feat.dgl"
        (FS.write (fun _ => none) (partPath "d" 0 "node_feat.dgl")
          [("n/x", { data := [[1]], dtype := "f" })])
      = .ok f) := by
  constructor
  · rfl
  · exact ⟨_, rfl⟩

/-- C3: for every exactly 2-dimensional shape (and a compatible service
version), constructing a WholeGraphDistTensor with use_wg_optimizer=False
eagerly creates the underlying tensor, so reads and writes succeed
immediately without ever calling attach_wg_optimizer. -/
theorem wg_dist_tensor_no_optimizer_ready
    (shape : List Nat) (dtype name location pylibVersion : String)
    (h2 : shape.length = 2) (hver : pyStrGe pylibVersion "23.12.00" = true) :
    ∃ s, WholeGraphDistTensor_init shape dtype name location false pylibVersion = .ok s ∧
      s.tensor = some (create_wg_dist_tensor shape dtype location false) ∧
      s.optimizer = none ∧ s.embModule = none ∧
      WholeGraphDistTensor_getitem s = .ok () ∧
      WholeGraphDistTensor_setitem s = .ok () := by
  obtain ⟨a, b, rfl⟩ := List.length_eq_two.mp h2
  refine ⟨{ nnodes := a, embeddingDim := b, name := name, dtype := dtype, location := location,
            useWgOptimizer := false,
            tensor := some (create_wg_dist_tensor [a, b] dtype location false),
            embModule := none, optimizer := none }, ?_, rfl, rfl, rfl, rfl, rfl⟩
  simp [WholeGraphDistTensor_init, hver]

/-- Witness for C3 at shape [3, 4]. -/
theorem wg_dist_tensor_no_optimizer_ready_witness :
    ([3, 4] : List Nat).length = 2 ∧ pyStrGe "23.12.00" "23.12.00" = true ∧
    (∃ s, WholeGraphDistTensor_init [3, 4] "torch.float32" "emb" "cpu" false "23.12.00"
        = .ok s ∧
      s.tensor = some (create_wg_dist_tensor [3, 4] "torch.float32" "cpu" false) ∧
      s.optimizer = none ∧ s.embModule = none ∧
      WholeGraphDistTensor_getitem s = .ok () ∧
      WholeGraphDistTensor_setitem s = .ok ()) :=
  ⟨by decide, by decide,
    wg_dist_tensor_no_optimizer_ready [3, 4] "torch.float32" "emb" "cpu" "23.12.00"
      (by decide) (by decide)⟩

/-- C4 evidence: on a freshly constructed optimizer-mode handle the
first attach_wg_optimizer call assigns the optimizer and then raises
NameError (the method body references the undefined names shape, dtype
and location), and no call of attach_wg_optimizer on any state ever
returns without an exception - the UNBOUND to BOUND-TRAINABLE transition
can never happen, let alone exactly once. -/
theorem attach_wg_optimizer_never_succeeds :
    (WholeGraphDistTensor_init [3, 4] "torch.float32" "emb" "cpu" true "23.12.00").map
        (fun s => attach_wg_optimizer s "adam")
      = .ok ({ nnodes := 3, embeddingDim := 4, name := "emb", dtype := "torch.float32",
               location := "cpu", useWgOptimizer := true, tensor := none, embModule := none,
               optimizer := some "adam" }, some (.nameError "shape")) ∧
    ∀ (s : WGDistTensorState) (opt : String), (attach_wg_optimizer s opt).2 ≠ none := by
  constructor
  · rfl
  · intro s opt
    obtain ⟨nn, ed, nm, dt, loc, uo, t, m, o⟩ := s
    cases uo <;> cases o <;> cases t <;> cases m <;> simp [attach_wg_optimizer]

/-- Counterexample to C6 as stated: a 3-dimensional shape is accepted
without any error and the underlying tensor is created with that
shape - construction only fails for shapes with fewer than two
entries. -/
theorem wg_dist_tensor_3d_shape_accepted :
    WholeGraphDistTensor_init [2, 3, 4] "torch.float32" "t" "cpu" false "23.12.00"
      = .ok { nnodes := 2, embeddingDim := 3, name := "t", dtype := "torch.float32",
              location := "cpu", useWgOptimizer := false,
              tensor := some (create_wg_dist_tensor [2, 3, 4] "torch.float32" "cpu" false),
              embModule := none, optimizer := none } := by
  rfl

/-- C6 as amended: constructing a WholeGraphDistTensor with a shape of
fewer than 2 dimensions raises immediately (IndexError on shape[1]),
before any underlying tensor is created; a shape with more than 2
dimensions is not rejected. -/
theorem wg_dist_tensor_short_shape_rejected
    (shape : List Nat) (dtype name location pylibVersion : String) (useOpt : Bool)
    (h : shape.length < 2) :
    WholeGraphDistTensor_init shape dtype name location useOpt pylibVersion
      = .error .indexError := by
  match shape, h with
  | [], _ => rfl
  | [a], _ => rfl

/-- Witness for the amended C6 at shape [5]. -/
theorem wg_dist_tensor_short_shape_rejected_witness :
    ([5] : List Nat).length < 2 ∧
    WholeGraphDistTensor_init [5] "torch.float32" "t" "cpu" false "23.12.00"
      = .error .indexError :=
  ⟨by decide,
    wg_dist_tensor_short_shape_rejected [5] "torch.float32" "t" "cpu" "23.12.00" false
      (by decide)⟩

end GSWholeGraph
